import Mathlib

/-!
Shallow embedding of the `re-utils` struct-layout engine
(`src/types.py`, `src/structs.py`, `src/cstructkit/annotations.py`,
`src/rom_utils.py`) and proofs about its specified behaviour.
-/

namespace ReUtils

deriving instance DecidableEq for Except

/-- The primitive C types of `src/types.py` (`UInt8 .. Int32`). -/
inductive PrimTy where
  | u8 | i8 | u16 | i16 | u32 | i32
  deriving DecidableEq, Repr

/-- `CType.size` per primitive (`src/types.py`). -/
def PrimTy.size : PrimTy → Nat
  | .u8 => 1 | .i8 => 1 | .u16 => 2 | .i16 => 2 | .u32 => 4 | .i32 => 4

/-- `CType.format` struct-format character per primitive (`src/types.py`). -/
def PrimTy.fmtChar : PrimTy → Char
  | .u8 => 'B' | .i8 => 'b' | .u16 => 'H' | .i16 => 'h' | .u32 => 'I' | .i32 => 'i'

/-- Whether `struct` decodes this format char as a signed integer. -/
def PrimTy.signed : PrimTy → Bool
  | .u8 => false | .i8 => true | .u16 => false | .i16 => true
  | .u32 => false | .i32 => true

/-- `padding_needed`: `(s - offset % s) % s` (`src/types.py` and
`CStruct.padding_needed` in `src/structs.py`, with `s` the alignment). -/
def paddingNeeded (offset s : Nat) : Nat := (s - offset % s) % s

mutual
/-- The type of one declared field: a primitive `CType` subclass, a nested
`CStruct` subclass, or anything else (which `__init_subclass__` rejects);
`invalid` carries the repr of the offending Python type. -/
inductive FieldTy where
  | prim (p : PrimTy)
  | comp (s : StructDef)
  | invalid (tyName : String)

/-- A `CStruct` subclass declaration: the `_is_carray` flag and the ordered
field annotations (`get_type_hints` insertion order). -/
inductive StructDef where
  | mk (isCArray : Bool) (fields : FieldList)

/-- The ordered `name : type` field declarations of a struct body. -/
inductive FieldList where
  | nil
  | cons (name : String) (ty : FieldTy) (tail : FieldList)
end

def StructDef.isCArray : StructDef → Bool
  | .mk b _ => b

def StructDef.fields : StructDef → FieldList
  | .mk _ fs => fs

/-- One element of the computed struct format string after the leading `'<'`:
a padding byte `'x'` or a primitive format code. -/
inductive FmtItem where
  | pad
  | code (p : PrimTy)
  deriving DecidableEq, Repr

/-- `struct.calcsize` of a `'<'`-prefixed format: with native alignment
disabled every item contributes exactly its own size. -/
def calcsize (fmt : List FmtItem) : Nat :=
  (fmt.map (fun it => match it with | .pad => 1 | .code p => p.size)).sum

/-- The character of one format item, for rebuilding the format string. -/
def FmtItem.char : FmtItem → Char
  | .pad => 'x'
  | .code p => p.fmtChar

/-- `AnnotationData` (`src/cstructkit/annotations.py`). -/
structure AnnotationData where
  name : String
  size : Nat
  offset : Nat
  deriving DecidableEq, Repr

/-- The loop state of `CStruct.__init_subclass__`: collected error messages,
running alignment, running offset, format items so far, annotation entries. -/
structure CState where
  errors : List String
  alignment : Nat
  offset : Nat
  fmt : List FmtItem
  ann : List AnnotationData
  deriving DecidableEq, Repr

/-- The metadata `__init_subclass__` caches on a successfully created class:
`_alignment`, `_format` (sans `'<'`), `_annotation_data`, `_size`. -/
structure Compiled where
  alignment : Nat
  fmt : List FmtItem
  annData : List AnnotationData
  size : Nat
  deriving DecidableEq, Repr

/-- Ways `__init_subclass__` can raise: the collected `TypeError` messages,
or the `ZeroDivisionError` from `padding_needed` on a 0-alignment nested
struct. -/
inductive CompileError where
  | declErrors (msgs : List String)
  | zeroDivision
  deriving DecidableEq, Repr

/-- The `TypeError` line for one invalid field
(`'{name} must be a CType or CStruct subclass, got {type}'`). -/
def declMsg (name tyName : String) : String :=
  name ++ " must be a CType or CStruct subclass, got " ++ tyName

def FieldList.length : FieldList → Nat
  | .nil => 0
  | .cons _ _ t => t.length + 1

/-- The flattened-name rule for a nested synthetic `CArray`
(`src/structs.py` lines 57-78): `idx = entry.offset // elem_size`, and the
underscore-prefix heuristic for anonymous element names. -/
def carrayEntry (parent : String) (elemSize off : Nat) (e : AnnotationData) :
    AnnotationData :=
  let idx := e.offset / elemSize
  let anon : Bool := match e.name.data with | [] => false | c :: _ => c = '_'
  let n :=
    if anon then parent ++ "_" ++ toString idx
    else parent ++ "_" ++ toString idx ++ "_" ++ e.name
  ⟨n, e.size, off + e.offset⟩

mutual
/-- One iteration of the `__init_subclass__` field loop (`src/structs.py`
lines 31-96). -/
def compileField (name : String) (ty : FieldTy) (st : CState) :
    Except CompileError CState :=
  match ty with
  | .prim p =>
      let padding := paddingNeeded st.offset p.size
      .ok ⟨st.errors, max st.alignment p.size, st.offset + padding + p.size,
           st.fmt ++ List.replicate padding .pad ++ [.code p],
           st.ann ++ [⟨name, p.size, st.offset + padding⟩]⟩
  | .comp s => do
      let c ← compileStruct s
      if c.alignment = 0 then throw .zeroDivision else
      let padding := paddingNeeded st.offset c.alignment
      let off := st.offset + padding
      let newAnn :=
        if s.isCArray then
          let elemSize := c.size / max 1 s.fields.length
          c.annData.map (carrayEntry name elemSize off)
        else
          c.annData.map (fun e => ⟨e.name, e.size, off + e.offset⟩)
      .ok ⟨st.errors, max st.alignment c.alignment, off + c.size,
           st.fmt ++ List.replicate padding .pad ++ c.fmt,
           st.ann ++ newAnn⟩
  | .invalid tyName =>
      .ok ⟨st.errors ++ [declMsg name tyName], st.alignment, st.offset,
           st.fmt, st.ann⟩

/-- The whole field loop of `__init_subclass__`, in declaration order. -/
def compileFields (fs : FieldList) (st : CState) : Except CompileError CState :=
  match fs with
  | .nil => .ok st
  | .cons name ty t => do
      let st' ← compileField name ty st
      compileFields t st'

/-- `__init_subclass__` as a whole: run the loop from the empty state, set
`_size = struct.calcsize(fmt)`, and raise the collected errors if any. -/
def compileStruct (s : StructDef) : Except CompileError Compiled :=
  match s with
  | .mk _ fs => do
      let st ← compileFields fs ⟨[], 0, 0, [], []⟩
      if st.errors = [] then .ok ⟨st.alignment, st.fmt, st.ann, calcsize st.fmt⟩
      else throw (.declErrors st.errors)
end

/-- The final loop state of `__init_subclass__` (running offset included). -/
def compileState (s : StructDef) : Except CompileError CState :=
  compileFields s.fields ⟨[], 0, 0, [], []⟩

/-- `CStruct.struct_format()`: the cached format string, `'<'` first. -/
def structFormat (c : Compiled) : String :=
  "<" ++ String.mk (c.fmt.map FmtItem.char)

/-- Little-endian value of a byte list (`int.from_bytes(bs, 'little')`). -/
def leNat : List Nat → Nat
  | [] => 0
  | b :: bs => b + 256 * leNat bs

/-- `struct` decoding of one primitive from its raw little-endian bytes:
unsigned codes give the plain value, signed codes two's complement. -/
def decPrim (p : PrimTy) (bs : List Nat) : Int :=
  if p.signed ∧ 2 ^ (8 * p.size - 1) ≤ leNat bs then
    (leNat bs : Int) - 2 ^ (8 * p.size)
  else (leNat bs : Int)

/-- `struct.unpack` of a `'<'` format against a byte buffer: consumes one
byte per `'x'` (discarded) and `size` bytes per code, and requires the
buffer length to match the format exactly (else `struct.error`). -/
def unpackItems : List FmtItem → List Nat → Option (List Int)
  | [], [] => some []
  | [], _ :: _ => none
  | .pad :: rest, _ :: bs => unpackItems rest bs
  | .pad :: _, [] => none
  | .code p :: rest, bs =>
      if p.size ≤ bs.length then
        match unpackItems rest (bs.drop p.size) with
        | some vs => some (decPrim p (bs.take p.size) :: vs)
        | none => none
      else none

mutual
/-- A parsed value tree: a `CType` instance (its `value`) or a `CStruct`
instance holding its field values in declaration order. -/
inductive Value where
  | prim (v : Int)
  | struct (vs : ValueList)

/-- The ordered member values of a parsed `CStruct` instance. -/
inductive ValueList where
  | nil
  | cons (v : Value) (t : ValueList)
end

/-- `_from_unpacked` (`src/structs.py` lines 140-151): rebuild the nested
value tree from the flat unpacked values, consuming one value per primitive
leaf in depth-first declaration order; non-CType/CStruct fields are
skipped (`continue`). `none` models `next()` raising on an exhausted
iterator. -/
def fromUnpackedFields : FieldList → List Int → Option (ValueList × List Int)
  | .nil, vs => some (.nil, vs)
  | .cons _ (.prim _) t, v :: vs =>
      match fromUnpackedFields t vs with
      | some (l, r) => some (.cons (.prim v) l, r)
      | none => none
  | .cons _ (.prim _) _, [] => none
  | .cons _ (.comp (.mk _ sfs)) t, vs =>
      match fromUnpackedFields sfs vs with
      | some (inner, vs') =>
          match fromUnpackedFields t vs' with
          | some (l, r) => some (.cons (.struct inner) l, r)
          | none => none
      | none => none
  | .cons _ (.invalid _) t, vs => fromUnpackedFields t vs

/-- The ways `CStruct.from_bytes` can fail: the length `assert`
(`AssertionError` carrying required vs. actual), `struct.error` from
`unpack`, iterator exhaustion, or the type itself failing to compile
(unreachable for a class that exists). -/
inductive ParseError where
  | truncated (required actual : Nat)
  | structError
  | stopIteration
  | compileErr (e : CompileError)
  deriving DecidableEq, Repr

/-- `CStruct.from_bytes` (`src/structs.py` lines 124-154): assert
`len(data) >= cls.size()`, `struct.unpack` the whole buffer, then rebuild
the value tree. -/
def fromBytes (s : StructDef) (data : List Nat) : Except ParseError Value :=
  match compileStruct s with
  | .error e => .error (.compileErr e)
  | .ok c =>
      if data.length < c.size then .error (.truncated c.size data.length)
      else
        match unpackItems c.fmt data with
        | none => .error .structError
        | some vs =>
            match fromUnpackedFields s.fields vs with
            | some (l, _) => .ok (.struct l)
            | none => .error .stopIteration

/-- `_iter_flat_values` (`src/structs.py` lines 193-198): depth-first leaf
values of a member list. -/
def flattenValues : ValueList → List Int
  | .nil => []
  | .cons (.prim v) t => v :: flattenValues t
  | .cons (.struct l) t => flattenValues l ++ flattenValues t

/-- Depth-first leaf values of a value tree. -/
def Value.flatten : Value → List Int
  | .prim v => [v]
  | .struct l => flattenValues l

/-- `leBytes s n`: the `s` little-endian base-256 digits of `n`. -/
def leBytes : Nat → Nat → List Nat
  | 0, _ => []
  | s + 1, n => n % 256 :: leBytes s (n / 256)

/-- Modelled from the spec: the repository has no encoder, and §8's
round-trip property (`encode(parse(b, T)) == b`) refers to packing the
flattened leaf values back per the packed-encoding descriptor, i.e.
`struct.pack` of the same `'<'` format: each padding item emits one zero
byte, each code item emits its primitive's bytes little-endian
(two's complement for signed codes), one value consumed per code. -/
def packItems : List FmtItem → List Int → Option (List Nat)
  | [], [] => some []
  | [], _ :: _ => none
  | .pad :: rest, vs => (packItems rest vs).map (fun bs => 0 :: bs)
  | .code _ :: _, [] => none
  | .code p :: rest, v :: vs =>
      (packItems rest vs).map
        (fun bs => leBytes p.size (v % (2 : Int) ^ (8 * p.size)).toNat ++ bs)

/-- Modelled from the spec: `encode` of a parsed composite value is
`struct.pack` of the type's format applied to the depth-first flattened
leaf values. -/
def encode (c : Compiled) (v : Value) : Option (List Nat) :=
  packItems c.fmt v.flatten

/-- Which byte positions of a format are padding bytes (`true` = padding,
not value-bearing). -/
def padMask : List FmtItem → List Bool
  | [] => []
  | .pad :: rest => true :: padMask rest
  | .code p :: rest => List.replicate p.size false ++ padMask rest

/-- `countP` of code items: how many values `unpack` yields for a format. -/
def codeCount (fmt : List FmtItem) : Nat :=
  fmt.countP (fun it => match it with | .code _ => true | .pad => false)

/-- Number of primitive leaves of a declaration list, nested composites
recursively included (invalid fields contribute none). -/
def leafCount : FieldList → Nat
  | .nil => 0
  | .cons _ (.prim _) t => 1 + leafCount t
  | .cons _ (.comp (.mk _ sfs)) t => leafCount sfs + leafCount t
  | .cons _ (.invalid _) t => leafCount t

/-- `n` tab characters (`'\t' * n`). -/
def tabs (n : Nat) : String := String.mk (List.replicate n '\t')

/-- `n` space characters. -/
def spaces (n : Nat) : String := String.mk (List.replicate n ' ')

/-- Python `str.rjust(w)` with spaces. -/
def rjust (s : String) (w : Nat) : String := spaces (w - s.length) ++ s

/-- Python `str.center(w)` with spaces: no-op when the string is at least
`w` long, else the extra pad character goes to the left exactly when the
margin and `w` are both odd (CPython `stringlib` rule). -/
def center (s : String) (w : Nat) : String :=
  if w ≤ s.length then s
  else
    let m := w - s.length
    let l := m / 2 + (if m % 2 = 1 ∧ w % 2 = 1 then 1 else 0)
    spaces l ++ s ++ spaces (m - l)

/-- A hex digit character, uppercase. -/
def hexDigitU (n : Nat) : Char :=
  if n < 10 then Char.ofNat (48 + n) else Char.ofNat (55 + n)

/-- Uppercase hex digits of `n`, most significant first (fuelled). -/
def hexCore : Nat → Nat → List Char
  | 0, _ => []
  | fuel + 1, n => if n = 0 then [] else hexCore fuel (n / 16) ++ [hexDigitU (n % 16)]

/-- Uppercase hex digits of `n` with no prefix (`"0"` for zero). -/
def natHexU (n : Nat) : String :=
  if n = 0 then "0" else String.mk (hexCore (n + 1) n)

/-- Python `f'{n:02X}'`: uppercase hex, zero-padded to at least 2 digits. -/
def hex02X (n : Nat) : String :=
  let s := natHexU n
  if s.length < 2 then "0" ++ s else s

/-- Python `hex(v)` with the digits after `'x'` uppercased, as done by
`_justified_hex` (`src/structs.py` lines 201-208). -/
def pyHexUpper (v : Int) : String :=
  if v < 0 then "-0x" ++ natHexU v.natAbs else "0x" ++ natHexU v.toNat

/-- Python `str.upper()` (ASCII, as used on field names). -/
def strUpper (s : String) : String := String.mk (s.data.map Char.toUpper)

/-- Python `str.removeprefix`. -/
def removePre (pre s : String) : String :=
  if pre.data.isPrefixOf s.data then String.mk (s.data.drop pre.data.length) else s

/-- Python `str.startswith('_')`. -/
def startsUnderscore (s : String) : Bool :=
  match s.data with
  | [] => false
  | c :: _ => c = '_'

/-- `AnnotationType` (`src/cstructkit/annotations.py`). -/
inductive AnnotationType where
  | NONE | NAME | OFFSET | SIZE
  deriving DecidableEq, Repr

/-- `AnnotationType.get_annotations`: one content string per entry. -/
def getAnnotations (t : AnnotationType) (data : List AnnotationData) :
    List String :=
  match t with
  | .NAME => data.map (fun e => strUpper e.name)
  | .OFFSET => data.map (fun e => "Offset: 0x" ++ hex02X e.offset)
  | .SIZE => data.map (fun e => "Size: 0x" ++ hex02X e.size)
  | .NONE => List.replicate data.length ""

/-- `AnnotationPosition` (`src/cstructkit/annotations.py`). -/
inductive AnnotationPosition where
  | INLINE | ABOVE
  deriving DecidableEq, Repr

/-- The longest length among the content strings (`max(len(note) ...)`;
Python raises on an empty list, this total model returns 0 there). -/
def maxLen : List String → Nat
  | [] => 0
  | s :: t => max s.length (maxLen t)

/-- `AnnotationPosition.place_annotations`: INLINE centers each content
string to the longest one inside `/* ... */ ` after the indentation;
ABOVE emits `// content` on its own indented line, with a leading newline
on every entry but the first. -/
def placeAnnotations (pos : AnnotationPosition) (anns : List String)
    (ind : Nat) : List String :=
  match pos with
  | .INLINE =>
      let longest := maxLen anns
      anns.map (fun a => tabs ind ++ "/* " ++ center a longest ++ " */ ")
  | .ABOVE =>
      match anns with
      | [] => []
      | a :: rest =>
          (tabs ind ++ "// " ++ a ++ "\n" ++ tabs ind) ::
            rest.map (fun x => "\n" ++ tabs ind ++ "// " ++ x ++ "\n" ++ tabs ind)

/-- `CStruct._get_annotations`: NONE short-circuits to pure indentation
strings, everything else goes through content generation and placement. -/
def getAnnotationStrings (c : Compiled) (t : AnnotationType)
    (pos : AnnotationPosition) (ind : Nat) : List String :=
  match t with
  | .NONE => List.replicate c.annData.length (tabs ind)
  | _ => placeAnnotations pos (getAnnotations t c.annData) ind

/-- `_justified_hex`: uppercased hex right-justified to the widest value. -/
def justifiedHex (v : Int) (w : Nat) : String := rjust (pyHexUpper v) w

/-- The value/annotation emission loop of `formatted_c`
(`src/structs.py` lines 222-238). -/
def renderLoop (fpl ind : Nat) (inline : Bool) :
    List (String × String) → Nat → String
  | [], _ => ""
  | (value, ann) :: rest, numInRow =>
      let ann := if numInRow ≠ 0 ∨ inline then removePre (tabs ind) ann else ann
      let piece := ann ++ value
      match rest with
      | [] => piece
      | _ :: _ =>
          if fpl ≤ numInRow + 1 then
            piece ++ ",\n" ++ renderLoop fpl ind inline rest 0
          else piece ++ ", " ++ renderLoop fpl ind inline rest (numInRow + 1)

/-- `CStruct.formatted_c` (`src/structs.py` lines 169-243), taking the
compiled metadata of the instance's class and the parsed value tree. -/
def formattedC (c : Compiled) (v : Value) (t : AnnotationType)
    (pos : AnnotationPosition) (ind fpl : Nat) : String :=
  let pre := tabs (ind - 1) ++ "\x7b"
  let suf := tabs (ind - 1) ++ "\x7d"
  let fpl := max fpl 1
  let anns := getAnnotationStrings c t pos ind
  let raw := v.flatten
  let widest := (raw.map (fun x => (pyHexUpper x).length)).foldl max 0
  let aligned := raw.map (fun x => justifiedHex x widest)
  let inline := decide (aligned.length ≤ fpl)
  let content := renderLoop fpl ind inline (aligned.zip anns) 0
  if inline then String.intercalate " " [pre, content, suf]
  else String.intercalate "\n" [pre, content, suf]

/-- Failure modes of `lz77_decompress` (`src/rom_utils.py`): the magic
`assert`, or a Python runtime error (an out-of-range back-reference index,
i.e. `IndexError`; the unreachable fuel-exhaustion case is folded in). -/
inductive LzError where
  | badMagic (m : Nat)
  | runtimeErr
  deriving DecidableEq, Repr

/-- The back-reference copy loop (`src/rom_utils.py` lines 117-120): one
byte per step from `buffer[bytes_written - displacement - 1]`, where the
buffer always holds exactly `bytes_written` bytes and Python wraps a
negative index once by the buffer length (raising `IndexError` when still
out of range). -/
def lzCopy (disp : Nat) : Nat → List Nat → Option (List Nat)
  | 0, out => some out
  | k + 1, out =>
      let bw := out.length
      if disp + 1 ≤ bw then
        lzCopy disp k (out ++ [out.getD (bw - disp - 1) 0])
      else if disp + 1 ≤ 2 * bw then
        lzCopy disp k (out ++ [out.getD (2 * bw - disp - 1) 0])
      else none

/-- The 8-operation inner loop over one flag byte (`src/rom_utils.py`
lines 94-120); the state is (remaining input, output so far), reads past
the end of the input yield `b''`, i.e. the value 0. -/
def lzInner (target flags : Nat) : Nat → List Nat × List Nat → Option (List Nat × List Nat)
  | 0, st => some st
  | k + 1, (inp, out) =>
      if target ≤ out.length then some (inp, out)
      else
        let i := 8 - (k + 1)
        if flags &&& (0x80 >>> i) = 0 then
          lzInner target flags k (inp.drop 1, out ++ [leNat (inp.take 1)])
        else
          let v := leNat (inp.take 2)
          let disp := ((v &&& 0xF) <<< 8) ||| (v >>> 8)
          let len := (v >>> 4) &&& 0xF
          match lzCopy disp (len + 3) out with
          | some out' => lzInner target flags k (inp.drop 2, out')
          | none => none

/-- The `while bytes_written < decompressed_length` loop
(`src/rom_utils.py` lines 90-120), fuelled: each iteration reads one flag
byte and runs the 8-operation inner loop. Every non-final iteration grows
the output, so fuel `target + 1` never runs out; the fuel-0 branch only
answers when the loop would have stopped anyway. -/
def lzOuter (target : Nat) : Nat → List Nat × List Nat → Option (List Nat × List Nat)
  | 0, st => if target ≤ st.2.length then some st else none
  | fuel + 1, (inp, out) =>
      if target ≤ out.length then some (inp, out)
      else
        let flags := leNat (inp.take 1)
        match lzInner target flags 8 (inp.drop 1, out) with
        | some st' => lzOuter target fuel st'
        | none => none

/-- `lz77_decompress` (`src/rom_utils.py` lines 64-122): 4-byte
little-endian header, low byte must be the magic `0x10`, upper 3 bytes are
the decompressed length; then the flag/operation body. -/
def lz77Decompress (data : List Nat) : Except LzError (List Nat) :=
  let header := leNat (data.take 4)
  let magic := header % 256
  if magic = 0x10 then
    let target := header / 256
    match lzOuter target (target + 1) (data.drop 4, []) with
    | some (_, out) => .ok out
    | none => .error .runtimeErr
  else .error (.badMagic magic)


/-! ### Example declarations used by witnesses and counterexamples -/

/-- The four-field example struct `A` of the spec and tests:
`UInt8, UInt32, UInt8, UInt16` in that order. -/
def structA : StructDef :=
  .mk false (.cons "a" (.prim .u8) (.cons "b" (.prim .u32)
    (.cons "c" (.prim .u8) (.cons "d" (.prim .u16) .nil))))

/-- The two-field example struct `B`: `UInt8 a, UInt16 b`. -/
def structB : StructDef :=
  .mk false (.cons "a" (.prim .u8) (.cons "b" (.prim .u16) .nil))

/-- A struct with a trailing 1-byte member after a 2-byte one:
`UInt16 a, UInt8 b` (size 3, alignment 2 — not a multiple). -/
def structE : StructDef :=
  .mk false (.cons "a" (.prim .u16) (.cons "b" (.prim .u8) .nil))

/-- The struct with no declared fields: it compiles (size 0,
alignment 0), but using it as a field divides by zero in
`padding_needed`. -/
def structEmpty : StructDef := .mk false .nil

/-- `a: int; b: Empty` — an invalid field followed by an empty-composite
field. -/
def structBadEmpty : StructDef :=
  .mk false (.cons "a" (.invalid "<class 'int'>")
    (.cons "b" (.comp structEmpty) .nil))

/-- `UInt8 a; E b; UInt32 c` with `E = structE` — the aligned-nesting
example of the tests. -/
def structNested : StructDef :=
  .mk false (.cons "a" (.prim .u8) (.cons "b" (.comp structE)
    (.cons "c" (.prim .u32) .nil)))

/-- The anonymous element fields `_0 .. _{count-1}` that
`CArray.__class_getitem__` synthesizes (`src/types.py` line 116). -/
def arrayFieldsFrom (elem : FieldTy) : Nat → Nat → FieldList
  | 0, _ => .nil
  | k + 1, i => .cons ("_" ++ toString i) elem (arrayFieldsFrom elem k (i + 1))

/-- `CArray.__class_getitem__` (`src/types.py` lines 95-124): validate the
count and element type, then build the synthetic `_is_carray`-tagged struct
declaration with `count` anonymous fields. -/
def carrayGetitem (elem : FieldTy) (count : Int) : Except String StructDef :=
  if count ≤ 0 then .error "CArray count must be a positive int"
  else
    match elem with
    | .invalid _ => .error "CArray element must be a CType or CStruct subclass"
    | _ => .ok (.mk true (arrayFieldsFrom elem count.toNat 0))

/-- The synthetic `CArray[structE, 2]` declaration. -/
def arrE2 : StructDef :=
  .mk true (.cons "_0" (.comp structE) (.cons "_1" (.comp structE) .nil))

/-- A struct with the single field `parent: CArray[structE, 2]`. -/
def parentArr : StructDef :=
  .mk false (.cons "parent" (.comp arrE2) .nil)

def FieldList.append : FieldList → FieldList → FieldList
  | .nil, b => b
  | .cons n ty t, b => .cons n ty (t.append b)

/-- The alignment contribution of one member: its primitive size, or the
nested composite's own computed alignment. -/
def memberAlign : FieldTy → Nat
  | .prim p => p.size
  | .comp s => match compileStruct s with | .ok c => c.alignment | .error _ => 0
  | .invalid _ => 0

/-- Running maximum of member alignments over a declaration list. -/
def alignFold : FieldList → Nat → Nat
  | .nil, a => a
  | .cons _ ty t, a => alignFold t (max a (memberAlign ty))

/-- The `TypeError` messages the compile loop collects, in field order. -/
def invalidMsgs : FieldList → List String
  | .nil => []
  | .cons n (.invalid t) rest => declMsg n t :: invalidMsgs rest
  | .cons _ (.prim _) rest => invalidMsgs rest
  | .cons _ (.comp _) rest => invalidMsgs rest

/-- Every directly nested composite field compiles with positive
alignment (so `padding_needed` cannot divide by zero). -/
def compOkFields : FieldList → Prop
  | .nil => True
  | .cons _ (.comp s) rest =>
      (∃ c, compileStruct s = .ok c ∧ 0 < c.alignment) ∧ compOkFields rest
  | .cons _ _ rest => compOkFields rest

/-- Pointwise agreement of two byte lists away from masked (padding)
positions; forces equal lengths. -/
def maskAgree : List Bool → List Nat → List Nat → Prop
  | [], [], [] => True
  | m :: ms, x :: xs, y :: ys => (m = false → x = y) ∧ maskAgree ms xs ys
  | _, _, _ => False

/-! ### Basic unfolding lemmas -/

theorem exbind_ok {ε α β : Type} (a : α) (f : α → Except ε β) :
    (Except.ok a : Except ε α) >>= f = f a := rfl

theorem exbind_err {ε α β : Type} (e : ε) (f : α → Except ε β) :
    (Except.error e : Except ε α) >>= f = .error e := rfl

theorem compileFields_nil (st : CState) : compileFields .nil st = .ok st := rfl

theorem compileFields_cons (n : String) (ty : FieldTy) (t : FieldList)
    (st : CState) :
    compileFields (.cons n ty t) st = (compileField n ty st) >>= compileFields t :=
  rfl

theorem compileStruct_def (b : Bool) (fs : FieldList) :
    compileStruct (.mk b fs) =
      (compileFields fs ⟨[], 0, 0, [], []⟩) >>= fun st =>
        if st.errors = [] then
          .ok ⟨st.alignment, st.fmt, st.ann, calcsize st.fmt⟩
        else .error (.declErrors st.errors) := rfl

theorem compileField_prim (n : String) (p : PrimTy) (st : CState) :
    compileField n (.prim p) st =
      .ok ⟨st.errors, max st.alignment p.size,
           st.offset + paddingNeeded st.offset p.size + p.size,
           st.fmt ++ List.replicate (paddingNeeded st.offset p.size) .pad ++
             [.code p],
           st.ann ++ [⟨n, p.size, st.offset + paddingNeeded st.offset p.size⟩]⟩ :=
  rfl

theorem compileField_invalid (n tyName : String) (st : CState) :
    compileField n (.invalid tyName) st =
      .ok ⟨st.errors ++ [declMsg n tyName], st.alignment, st.offset,
           st.fmt, st.ann⟩ := rfl

theorem compileField_comp (n : String) (s : StructDef) (st : CState) :
    compileField n (.comp s) st =
      (compileStruct s) >>= fun c =>
        if c.alignment = 0 then .error .zeroDivision
        else
          .ok ⟨st.errors, max st.alignment c.alignment,
               st.offset + paddingNeeded st.offset c.alignment + c.size,
               st.fmt ++
                 List.replicate (paddingNeeded st.offset c.alignment) .pad ++
                 c.fmt,
               st.ann ++
                 (if s.isCArray then
                    (c.annData.map
                      (carrayEntry n (c.size / max 1 s.fields.length)
                        (st.offset + paddingNeeded st.offset c.alignment)))
                  else
                    (c.annData.map (fun e =>
                      ⟨e.name, e.size,
                       st.offset + paddingNeeded st.offset c.alignment +
                         e.offset⟩)))⟩ := rfl

/-- Inverting a successful `compileStruct`. -/
theorem compileStruct_ok_iff (b : Bool) (fs : FieldList) (c : Compiled) :
    compileStruct (.mk b fs) = .ok c ↔
      ∃ st, compileFields fs ⟨[], 0, 0, [], []⟩ = .ok st ∧ st.errors = [] ∧
        c = ⟨st.alignment, st.fmt, st.ann, calcsize st.fmt⟩ := by
  rw [compileStruct_def]
  cases hf : compileFields fs ⟨[], 0, 0, [], []⟩ with
  | error e => simp [exbind_err]
  | ok st =>
      by_cases he : st.errors = [] <;>
        simp [exbind_ok, he, eq_comm]

/-- A compiled type's cached size is the calcsize of its cached format. -/
theorem compiled_size_calc (s : StructDef) (c : Compiled)
    (h : compileStruct s = .ok c) : c.size = calcsize c.fmt := by
  obtain ⟨b, fs⟩ := s
  obtain ⟨st, -, -, rfl⟩ := (compileStruct_ok_iff b fs c).1 h
  rfl

theorem calcsize_append (a b : List FmtItem) :
    calcsize (a ++ b) = calcsize a + calcsize b := by
  simp [calcsize]

theorem calcsize_replicate_pad (n : Nat) :
    calcsize (List.replicate n .pad) = n := by
  simp [calcsize, List.map_replicate, List.sum_replicate]

theorem calcsize_code (p : PrimTy) : calcsize [.code p] = p.size := by
  simp [calcsize]

/-! ### C1: packed layout and size = final offset -/

/-- One compile step preserves `calcsize fmt = offset`. -/
theorem size_step (n : String) (ty : FieldTy) (st st' : CState)
    (h : compileField n ty st = .ok st') (inv : calcsize st.fmt = st.offset) :
    calcsize st'.fmt = st'.offset := by
  cases ty with
  | prim p =>
      rw [compileField_prim] at h
      cases h
      simp [calcsize_append, calcsize_replicate_pad, calcsize_code, inv]
      omega
  | comp s =>
      rw [compileField_comp] at h
      cases hc : compileStruct s with
      | error e => rw [hc, exbind_err] at h; cases h
      | ok c =>
          rw [hc, exbind_ok] at h
          by_cases h0 : c.alignment = 0
          · simp [h0] at h
          · simp only [h0, if_false] at h
            cases h
            have hsz := compiled_size_calc s c hc
            simp [calcsize_append, calcsize_replicate_pad, inv, ← hsz]
            omega
  | invalid t =>
      rw [compileField_invalid] at h; cases h; simpa using inv

/-- The whole compile loop preserves `calcsize fmt = offset`. -/
theorem size_fields : ∀ (fs : FieldList) (st st' : CState),
    compileFields fs st = .ok st' → calcsize st.fmt = st.offset →
    calcsize st'.fmt = st'.offset
  | .nil, st, st', h, inv => by
      rw [compileFields_nil] at h; cases h; exact inv
  | .cons n ty t, st, st', h, inv => by
      rw [compileFields_cons] at h
      cases hf : compileField n ty st with
      | error e => rw [hf, exbind_err] at h; cases h
      | ok st1 =>
          rw [hf, exbind_ok] at h
          exact size_fields t st1 st' h (size_step n ty st st1 hf inv)

/-- C1: compiling `[UInt8, UInt32, UInt8, UInt16]` yields the packed
format `'<BxxxIBxH'` (U8, 3 pads, U32, U8, 1 pad, U16) with total size
`0xC`; and in general a compiled composite's size equals the field loop's
final running offset — no trailing padding is ever added. -/
theorem c1_packed_layout_and_size :
    ((compileStruct structA).map structFormat = .ok "<BxxxIBxH" ∧
     (compileStruct structA).map Compiled.size = .ok 12) ∧
    ∀ (s : StructDef) (st : CState) (c : Compiled),
      compileState s = .ok st → compileStruct s = .ok c → c.size = st.offset := by
  refine ⟨⟨rfl, rfl⟩, ?_⟩
  intro s st c hst hc
  obtain ⟨b, fs⟩ := s
  obtain ⟨st2, hf2, -, rfl⟩ := (compileStruct_ok_iff b fs c).1 hc
  have hdet : compileFields fs ⟨[], 0, 0, [], []⟩ = .ok st := hst
  rw [hf2] at hdet
  cases hdet
  exact size_fields fs _ _ hf2 rfl

/-- Witness for C1 at the concrete example struct. -/
theorem c1_witness :
    compileState structA =
      .ok ⟨[], 4, 12,
           [.code .u8, .pad, .pad, .pad, .code .u32, .code .u8, .pad,
            .code .u16],
           [⟨"a", 1, 0⟩, ⟨"b", 4, 4⟩, ⟨"c", 1, 8⟩, ⟨"d", 2, 10⟩]⟩ ∧
    compileStruct structA =
      .ok ⟨4,
           [.code .u8, .pad, .pad, .pad, .code .u32, .code .u8, .pad,
            .code .u16],
           [⟨"a", 1, 0⟩, ⟨"b", 4, 4⟩, ⟨"c", 1, 8⟩, ⟨"d", 2, 10⟩], 12⟩ ∧
    (⟨4,
      [.code .u8, .pad, .pad, .pad, .code .u32, .code .u8, .pad, .code .u16],
      [⟨"a", 1, 0⟩, ⟨"b", 4, 4⟩, ⟨"c", 1, 8⟩, ⟨"d", 2, 10⟩], 12⟩ :
        Compiled).size = 12 :=
  ⟨rfl, rfl, c1_packed_layout_and_size.2 structA _ _ rfl rfl⟩

/-! ### C3 / C10: buffer-length behaviour of `from_bytes` -/

/-- `struct.unpack` only succeeds on buffers of exactly the format's
calcsize. -/
theorem unpack_some_length : ∀ (fmt : List FmtItem) (bs : List Nat)
    (vs : List Int), unpackItems fmt bs = some vs → bs.length = calcsize fmt
  | [], [], _, _ => by simp [calcsize]
  | [], _ :: _, _, h => by simp [unpackItems] at h
  | .pad :: rest, [], _, h => by simp [unpackItems] at h
  | .pad :: rest, b :: bs, vs, h => by
      have ih := unpack_some_length rest bs vs (by simpa [unpackItems] using h)
      simp [calcsize] at ih ⊢
      omega
  | .code p :: rest, bs, vs, h => by
      simp only [unpackItems] at h
      by_cases hle : p.size ≤ bs.length
      · rw [if_pos hle] at h
        cases hu : unpackItems rest (bs.drop p.size) with
        | none => rw [hu] at h; cases h
        | some vs' =>
            have ih := unpack_some_length rest _ _ hu
            rw [List.length_drop] at ih
            simp [calcsize] at ih ⊢
            omega
      · rw [if_neg hle] at h; cases h

/-- C3: parsing any buffer strictly shorter than the compiled size fails
with the truncation error carrying required and actual lengths, and
returns no value tree. -/
theorem c3_truncated_short_input :
    ∀ (s : StructDef) (c : Compiled) (data : List Nat),
      compileStruct s = .ok c → data.length < c.size →
      fromBytes s data = .error (.truncated c.size data.length) := by
  intro s c data hc hlt
  simp [fromBytes, hc, if_pos hlt]

/-- Witness for C3: a 3-byte buffer against the 4-byte struct `B`. -/
theorem c3_witness :
    compileStruct structB =
      .ok ⟨2, [.code .u8, .pad, .code .u16], [⟨"a", 1, 0⟩, ⟨"b", 2, 2⟩], 4⟩ ∧
    (3 : Nat) < 4 ∧
    fromBytes structB [0, 0, 0] = .error (.truncated 4 3) :=
  ⟨rfl, by decide,
   c3_truncated_short_input structB _ [0, 0, 0] rfl (by decide)⟩

/-- C10: parsing any buffer strictly longer than the compiled size also
fails (the exact-length `struct.unpack` raises `struct.error`), although
the documented precondition `len(bytes) >= size` accepts it. -/
theorem c10_longer_buffer_fails :
    ∀ (s : StructDef) (c : Compiled) (data : List Nat),
      compileStruct s = .ok c → c.size < data.length →
      fromBytes s data = .error .structError := by
  intro s c data hc hgt
  have hsz := compiled_size_calc s c hc
  have hnone : unpackItems c.fmt data = none := by
    cases hu : unpackItems c.fmt data with
    | none => rfl
    | some vs =>
        have := unpack_some_length c.fmt data vs hu
        omega
  have hnl : ¬ data.length < c.size := by omega
  simp [fromBytes, hc, hnl, hnone]

/-- Witness for C10: a 5-byte buffer against the 4-byte struct `B`. -/
theorem c10_witness :
    compileStruct structB =
      .ok ⟨2, [.code .u8, .pad, .code .u16], [⟨"a", 1, 0⟩, ⟨"b", 2, 2⟩], 4⟩ ∧
    (4 : Nat) < 5 ∧
    fromBytes structB [0, 0, 0, 0, 0] = .error .structError :=
  ⟨rfl, by decide,
   c10_longer_buffer_fails structB _ [0, 0, 0, 0, 0] rfl (by decide)⟩

/-! ### C8: invalid field declarations -/

/-- When every nested composite member is benign, the compile loop
succeeds and collects exactly the invalid-field messages, in order. -/
theorem compile_errors_collect : ∀ (fs : FieldList) (st : CState),
    compOkFields fs →
    ∃ st', compileFields fs st = .ok st' ∧
      st'.errors = st.errors ++ invalidMsgs fs
  | .nil, st, _ => ⟨st, rfl, by simp [invalidMsgs]⟩
  | .cons n (.prim p) t, st, hok => by
      obtain ⟨st', h1, h2⟩ := compile_errors_collect t _ (by
        simpa [compOkFields] using hok)
      refine ⟨st', ?_, ?_⟩
      · rw [compileFields_cons, compileField_prim, exbind_ok]; exact h1
      · simpa [invalidMsgs] using h2
  | .cons n (.invalid ty) t, st, hok => by
      obtain ⟨st', h1, h2⟩ := compile_errors_collect t
        (⟨st.errors ++ [declMsg n ty], st.alignment, st.offset, st.fmt, st.ann⟩)
        (by simpa [compOkFields] using hok)
      refine ⟨st', ?_, ?_⟩
      · rw [compileFields_cons, compileField_invalid, exbind_ok]; exact h1
      · rw [h2]; simp [invalidMsgs]
  | .cons n (.comp s) t, st, hok => by
      have hok' : (∃ c, compileStruct s = .ok c ∧ 0 < c.alignment) ∧
          compOkFields t := hok
      obtain ⟨⟨c, hc, hpos⟩, hok2⟩ := hok'
      obtain ⟨st', h1, h2⟩ := compile_errors_collect t _ hok2
      refine ⟨st', ?_, ?_⟩
      · rw [compileFields_cons, compileField_comp, hc, exbind_ok,
          if_neg (Nat.pos_iff_ne_zero.1 hpos), exbind_ok]
        exact h1
      · simpa [invalidMsgs] using h2

/-- Counterexample to C8 as stated: with an invalid field `a` followed by
a field of the (successfully compiled) empty composite, compilation fails
with `ZeroDivisionError` from `padding_needed`, not with a declaration
error naming `a`. -/
theorem c8_counterexample :
    compileStruct structEmpty = .ok ⟨0, [], [], 0⟩ ∧
    compileStruct structBadEmpty = .error .zeroDivision ∧
    CompileError.zeroDivision ≠
      .declErrors [declMsg "a" "<class 'int'>"] :=
  ⟨rfl, rfl, by decide⟩

/-- C8 (amended): provided every directly nested composite field has
positive alignment, compiling a declaration list with at least one
invalid field fails with a declaration error carrying exactly the
messages for all offending fields, in declaration order — and produces no
compiled type. -/
theorem c8_collects_all_invalid_fields :
    ∀ (b : Bool) (fs : FieldList), compOkFields fs → invalidMsgs fs ≠ [] →
      compileStruct (.mk b fs) = .error (.declErrors (invalidMsgs fs)) := by
  intro b fs hok hne
  obtain ⟨st', h1, h2⟩ := compile_errors_collect fs ⟨[], 0, 0, [], []⟩ hok
  rw [compileStruct_def, h1, exbind_ok]
  have h3 : st'.errors = invalidMsgs fs := by simpa using h2
  rw [if_neg (by rw [h3]; exact hne), h3]

/-- Witness for C8 (amended): `a: UInt8; b: int`, as in the tests. -/
theorem c8_witness :
    compileStruct
        (.mk false (.cons "a" (.prim .u8)
          (.cons "b" (.invalid "<class 'int'>") .nil))) =
      .error (.declErrors [declMsg "b" "<class 'int'>"]) :=
  c8_collects_all_invalid_fields false _ (by simp [compOkFields]) (by decide)

/-! ### C6: alignment is the member maximum; nested starts are aligned -/

/-- One compile step takes the running max with the member alignment. -/
theorem align_step (n : String) (ty : FieldTy) (st st' : CState)
    (h : compileField n ty st = .ok st') :
    st'.alignment = max st.alignment (memberAlign ty) := by
  cases ty with
  | prim p => rw [compileField_prim] at h; cases h; rfl
  | comp s =>
      rw [compileField_comp] at h
      cases hc : compileStruct s with
      | error e => rw [hc, exbind_err] at h; cases h
      | ok c =>
          rw [hc, exbind_ok] at h
          by_cases h0 : c.alignment = 0
          · simp [h0] at h
          · simp only [h0, if_false] at h
            cases h
            simp [memberAlign, hc]
  | invalid t => rw [compileField_invalid] at h; cases h; simp [memberAlign]

/-- The compile loop folds max over the member alignments. -/
theorem align_fields : ∀ (fs : FieldList) (st st' : CState),
    compileFields fs st = .ok st' → st'.alignment = alignFold fs st.alignment
  | .nil, st, st', h => by rw [compileFields_nil] at h; cases h; rfl
  | .cons n ty t, st, st', h => by
      rw [compileFields_cons] at h
      cases hf : compileField n ty st with
      | error e => rw [hf, exbind_err] at h; cases h
      | ok st1 =>
          rw [hf, exbind_ok] at h
          rw [alignFold, ← align_step n ty st st1 hf]
          exact align_fields t st1 st' h

/-- Splitting a successful compile loop at a list split point. -/
theorem compileFields_append_inv : ∀ (a b : FieldList) (st st' : CState),
    compileFields (a.append b) st = .ok st' →
    ∃ stm, compileFields a st = .ok stm ∧ compileFields b stm = .ok st'
  | .nil, b, st, st', h => ⟨st, rfl, h⟩
  | .cons n ty t, b, st, st', h => by
      rw [FieldList.append, compileFields_cons] at h
      cases hf : compileField n ty st with
      | error e => rw [hf, exbind_err] at h; cases h
      | ok st1 =>
          rw [hf, exbind_ok] at h
          obtain ⟨stm, h1, h2⟩ := compileFields_append_inv t b st1 st' h
          exact ⟨stm, by rw [compileFields_cons, hf, exbind_ok]; exact h1, h2⟩

/-- After inserting `padding_needed`, the cursor is a multiple of the
alignment. -/
theorem pad_aligns (o a : Nat) (h : 0 < a) :
    (o + paddingNeeded o a) % a = 0 := by
  have h1 : o % a < a := Nat.mod_lt _ h
  rcases Nat.eq_zero_or_pos (o % a) with h0 | h0
  · have hp : paddingNeeded o a = 0 := by
      simp [paddingNeeded, h0, Nat.sub_zero, Nat.mod_self]
    rw [hp, Nat.add_zero]; exact h0
  · have hp : paddingNeeded o a = a - o % a := by
      unfold paddingNeeded
      rw [Nat.mod_eq_of_lt (by omega)]
    rw [hp]
    have ho := Nat.mod_add_div o a
    have he : o + (a - o % a) = a * (o / a) + a := by omega
    have he2 : a * (o / a) + a = a * (o / a + 1) := by ring
    rw [he, he2, Nat.mul_mod_right]

/-- C6: a compiled composite's alignment is the maximum of its direct
members' alignments (primitive size, or the nested composite's own
alignment), and every nested composite field starts at an offset that is
a multiple of that composite's alignment. -/
theorem c6_alignment_invariant (s : StructDef) (c : Compiled)
    (h : compileStruct s = .ok c) :
    c.alignment = alignFold s.fields 0 ∧
    ∀ (pre : FieldList) (n : String) (sub : StructDef) (post : FieldList)
      (st : CState) (csub : Compiled),
      s.fields = pre.append (.cons n (.comp sub) post) →
      compileFields pre ⟨[], 0, 0, [], []⟩ = .ok st →
      compileStruct sub = .ok csub →
      (st.offset + paddingNeeded st.offset csub.alignment) % csub.alignment
        = 0 := by
  obtain ⟨b, fs⟩ := s
  obtain ⟨stF, hfF, -, rfl⟩ := (compileStruct_ok_iff b fs c).1 h
  constructor
  · exact align_fields fs _ _ hfF
  · intro pre n sub post st csub hsplit hpre hsub
    have hsplit' : fs = pre.append (.cons n (.comp sub) post) := hsplit
    rw [hsplit'] at hfF
    obtain ⟨stm, h1, h2⟩ := compileFields_append_inv _ _ _ _ hfF
    rw [hpre] at h1
    cases h1
    rw [compileFields_cons] at h2
    cases hf : compileField n (.comp sub) st with
    | error e => rw [hf, exbind_err] at h2; cases h2
    | ok st1 =>
        rw [compileField_comp, hsub, exbind_ok] at hf
        by_cases h0 : csub.alignment = 0
        · simp [h0] at hf
        · exact pad_aligns st.offset csub.alignment (Nat.pos_of_ne_zero h0)

/-- Witness for C6 at `structNested` (`UInt8; structE; UInt32`). -/
theorem c6_witness :
    compileStruct structNested =
      .ok ⟨4,
           [.code .u8, .pad, .code .u16, .code .u8, .pad, .pad, .pad,
            .code .u32],
           [⟨"a", 1, 0⟩, ⟨"a", 2, 2⟩, ⟨"b", 1, 4⟩, ⟨"c", 4, 8⟩], 12⟩ ∧
    (4 : Nat) = alignFold structNested.fields 0 ∧
    (1 + paddingNeeded 1 2) % 2 = 0 :=
  ⟨rfl, (c6_alignment_invariant structNested _ rfl).1,
   (c6_alignment_invariant structNested _ rfl).2
     (.cons "a" (.prim .u8) .nil) "b" structE
     (.cons "c" (.prim .u32) .nil)
     ⟨[], 1, 1, [.code .u8], [⟨"a", 1, 0⟩]⟩
     ⟨2, [.code .u16, .code .u8], [⟨"a", 2, 0⟩, ⟨"b", 1, 2⟩], 3⟩
     rfl rfl rfl⟩

/-! ### C5: array-element annotation naming -/

/-- C5 fails on the code: for `parent: CArray[structE, 2]`
(`structE` = `{UInt16 a; UInt8 b}`, size 3, alignment 2), the array has
inter-element padding, `elem_size = 7 // 2 = 3`, and the second element's
`b` leaf (offset 6) is flattened as `parent_2_b` — an element index 2
that does not exist in a 2-element array — where the documented rule says
`parent_1_b`. -/
theorem c5_array_naming_bug :
    carrayGetitem (.comp structE) 2 = .ok arrE2 ∧
    (compileStruct arrE2).map Compiled.size = .ok 7 ∧
    (compileStruct parentArr).map Compiled.annData =
      .ok [⟨"parent_0_a", 2, 0⟩, ⟨"parent_0_b", 1, 2⟩,
           ⟨"parent_1_a", 2, 4⟩, ⟨"parent_2_b", 1, 6⟩] :=
  ⟨rfl, rfl, rfl⟩

/-! ### C4: parsed values and default rendering of struct `B` -/

/-- Counterexample to C4 as stated: parsing `11 FF 22 22` with
`UInt8 a; UInt16 b` gives `a = 0x11`, `b = 0x2222`, but default rendering
right-justifies `0x11` to the width of `0x2222`, so the output is not
the claimed string. -/
theorem c4_counterexample :
    fromBytes structB [0x11, 0xFF, 0x22, 0x22] =
      .ok (.struct (.cons (.prim 0x11) (.cons (.prim 0x2222) .nil))) ∧
    (compileStruct structB).map
        (fun c =>
          formattedC c
            (.struct (.cons (.prim 0x11) (.cons (.prim 0x2222) .nil)))
            .NONE .INLINE 1 1) ≠
      .ok "\x7b\n\t0x11,\n\t0x2222\n\x7d" :=
  ⟨rfl, by decide⟩

/-- C4 (amended): the parsed values are `a = 0x11`, `b = 0x2222`
(little-endian), and default rendering produces exactly
`"{\n\t  0x11,\n\t0x2222\n}"` — the same string as claimed except that
`0x11` is right-justified with two spaces to the width of `0x2222`. -/
theorem c4_values_and_rendering :
    fromBytes structB [0x11, 0xFF, 0x22, 0x22] =
      .ok (.struct (.cons (.prim 0x11) (.cons (.prim 0x2222) .nil))) ∧
    (compileStruct structB).map
        (fun c =>
          formattedC c
            (.struct (.cons (.prim 0x11) (.cons (.prim 0x2222) .nil)))
            .NONE .INLINE 1 1) =
      .ok "\x7b\n\t  0x11,\n\t0x2222\n\x7d" :=
  ⟨rfl, rfl⟩

/-! ### C9: decompressed length vs. the header -/

/-- Whenever the fuelled outer loop answers, the output has reached the
target length. -/
theorem lzOuter_ok_len : ∀ (target fuel : Nat) (st st' : List Nat × List Nat),
    lzOuter target fuel st = some st' → target ≤ st'.2.length
  | target, 0, st, st', h => by
      simp only [lzOuter] at h
      by_cases hle : target ≤ st.2.length
      · rw [if_pos hle] at h; cases h; exact hle
      · rw [if_neg hle] at h; cases h
  | target, fuel + 1, (inp, out), st', h => by
      simp only [lzOuter] at h
      by_cases hle : target ≤ out.length
      · rw [if_pos hle] at h; cases h; exact hle
      · rw [if_neg hle] at h
        cases hi : lzInner target (leNat (inp.take 1)) 8 (inp.drop 1, out) with
        | none => rw [hi] at h; cases h
        | some stm => rw [hi] at h; exact lzOuter_ok_len target fuel stm st' h

/-- Counterexample to C9 as stated: a magic-valid stream whose header
announces 4 bytes but whose final back-reference overshoots, so the
returned data has 5 bytes. -/
theorem c9_counterexample :
    leNat (List.take 4 [0x10, 0x04, 0x00, 0x00, 0x40, 0x41, 0x10, 0x00]) %
        256 = 0x10 ∧
    leNat (List.take 4 [0x10, 0x04, 0x00, 0x00, 0x40, 0x41, 0x10, 0x00]) /
        256 = 4 ∧
    lz77Decompress [0x10, 0x04, 0x00, 0x00, 0x40, 0x41, 0x10, 0x00] =
      .ok [0x41, 0x41, 0x41, 0x41, 0x41] ∧
    ([0x41, 0x41, 0x41, 0x41, 0x41] : List Nat).length ≠ 4 :=
  ⟨rfl, rfl, rfl, by decide⟩

/-- C9 (amended): any byte string `decompress` successfully returns has
length at least (not exactly) the decompressed length announced in the
header's upper 3 bytes — a trailing back-reference may overshoot it — and
a mismatching magic low byte always fails. -/
theorem c9_decompress_length :
    (∀ (data out : List Nat), lz77Decompress data = .ok out →
       leNat (data.take 4) / 256 ≤ out.length) ∧
    (∀ data : List Nat, leNat (data.take 4) % 256 ≠ 0x10 →
       lz77Decompress data = .error (.badMagic (leNat (data.take 4) % 256))) := by
  constructor
  · intro data out h
    simp only [lz77Decompress] at h
    by_cases hm : leNat (data.take 4) % 256 = 0x10
    · rw [if_pos hm] at h
      cases ho : lzOuter (leNat (data.take 4) / 256)
          (leNat (data.take 4) / 256 + 1) (data.drop 4, []) with
      | none => rw [ho] at h; cases h
      | some st' =>
          obtain ⟨inp', out'⟩ := st'
          rw [ho] at h
          cases h
          exact lzOuter_ok_len _ _ _ _ ho
    · rw [if_neg hm] at h; cases h
  · intro data hm
    simp [lz77Decompress, hm]

/-- Witness for C9 (amended): the overshooting stream reaches its header
length, and magic byte `0x11` is rejected. -/
theorem c9_witness :
    leNat (List.take 4 [0x10, 0x04, 0x00, 0x00, 0x40, 0x41, 0x10, 0x00]) /
        256 ≤ ([0x41, 0x41, 0x41, 0x41, 0x41] : List Nat).length ∧
    lz77Decompress [0x11, 0, 0, 0] = .error (.badMagic 0x11) :=
  ⟨c9_decompress_length.1 _ _ rfl,
   c9_decompress_length.2 [0x11, 0, 0, 0] (by decide)⟩

/-! ### C7: annotation content and inline placement -/

theorem getD_map_ann (f : AnnotationData → String) :
    ∀ (l : List AnnotationData) (i : Nat), i < l.length →
      (l.map f).getD i "" = f (l.getD i ⟨"", 0, 0⟩)
  | [], i, h => absurd h (by simp)
  | d :: t, 0, _ => rfl
  | d :: t, i + 1, h => getD_map_ann f t i (by simpa using h)

theorem getD_map_str (f : String → String) :
    ∀ (l : List String) (i : Nat), i < l.length →
      (l.map f).getD i "" = f (l.getD i "")
  | [], i, h => absurd h (by simp)
  | d :: t, 0, _ => rfl
  | d :: t, i + 1, h => getD_map_str f t i (by simpa using h)

theorem length_mk (l : List Char) : (String.mk l).length = l.length := rfl

theorem spaces_length (n : Nat) : (spaces n).length = n := by
  simp [spaces, length_mk]

theorem tabs_length (n : Nat) : (tabs n).length = n := by
  simp [tabs, length_mk]

theorem str_length_append (a b : String) :
    (a ++ b).length = a.length + b.length := by
  obtain ⟨da⟩ := a
  obtain ⟨db⟩ := b
  show (String.mk (da ++ db)).length = _
  simp [length_mk, String.length]

/-- Every indexed element's length is bounded by the running maximum. -/
theorem getD_le_maxLen : ∀ (l : List String) (i : Nat), i < l.length →
    (l.getD i "").length ≤ maxLen l
  | [], i, h => absurd h (by simp)
  | d :: t, 0, _ => by
      rw [List.getD_cons_zero, maxLen]
      exact le_max_left _ _
  | d :: t, i + 1, h => by
      have ih := getD_le_maxLen t i (by simpa using h)
      rw [List.getD_cons_succ, maxLen]
      exact le_trans ih (le_max_right _ _)

/-- Centering a string no longer than `w` produces a string of exactly
length `w`. -/
theorem center_length (s : String) (w : Nat) (h : s.length ≤ w) :
    (center s w).length = w := by
  by_cases hw : w ≤ s.length
  · rw [center, if_pos hw]; omega
  · rw [center, if_neg hw]
    simp only [str_length_append, spaces_length]
    split_ifs with hc
    · obtain ⟨h1, h2⟩ := hc; omega
    · omega

/-- C7: content modes produce the uppercased name, `Offset: 0x{:02X}` and
`Size: 0x{:02X}` strings per leaf, and inline placement wraps each content
string as `/* ... */ ` center-justified to the longest content string,
prefixed by `indentLevel` tabs. -/
theorem c7_annotation_engine :
    ∀ (data : List AnnotationData) (anns : List String) (ind i : Nat),
      (i < data.length →
        ((getAnnotations .NAME data).getD i "" =
            strUpper ((data.getD i ⟨"", 0, 0⟩).name) ∧
         (getAnnotations .OFFSET data).getD i "" =
            "Offset: 0x" ++ hex02X ((data.getD i ⟨"", 0, 0⟩).offset) ∧
         (getAnnotations .SIZE data).getD i "" =
            "Size: 0x" ++ hex02X ((data.getD i ⟨"", 0, 0⟩).size))) ∧
      (i < anns.length →
        ((placeAnnotations .INLINE anns ind).getD i "" =
            tabs ind ++ "/* " ++ center (anns.getD i "") (maxLen anns) ++
              " */ " ∧
         (center (anns.getD i "") (maxLen anns)).length = maxLen anns ∧
         (tabs ind).length = ind)) := by
  intro data anns ind i
  constructor
  · intro hi
    exact ⟨getD_map_ann _ data i hi, getD_map_ann _ data i hi,
           getD_map_ann _ data i hi⟩
  · intro hi
    refine ⟨getD_map_str _ anns i hi, ?_, tabs_length ind⟩
    exact center_length _ _ (getD_le_maxLen anns i hi)

/-- Witness for C7 at the test fixtures. -/
theorem c7_witness :
    (0 : Nat) < 2 ∧
    (getAnnotations .NAME [⟨"a", 1, 0⟩, ⟨"b", 4, 4⟩]).getD 0 "" = "A" ∧
    (getAnnotations .OFFSET [⟨"a", 1, 0⟩, ⟨"b", 4, 4⟩]).getD 0 "" =
      "Offset: 0x00" ∧
    (getAnnotations .SIZE [⟨"a", 1, 0⟩, ⟨"b", 4, 4⟩]).getD 0 "" =
      "Size: 0x01" ∧
    (placeAnnotations .INLINE ["fieldA", "fieldB"] 1).getD 0 "" =
      "\t/* fieldA */ " ∧
    (center "fieldA" (maxLen ["fieldA", "fieldB"])).length =
      maxLen ["fieldA", "fieldB"] := by
  have h := c7_annotation_engine [⟨"a", 1, 0⟩, ⟨"b", 4, 4⟩]
    ["fieldA", "fieldB"] 1 0
  have h1 := h.1 (by decide)
  have h2 := h.2 (by decide)
  exact ⟨by decide, h1.1.trans (by decide), h1.2.1.trans (by decide),
         h1.2.2.trans (by decide), h2.1.trans (by decide), h2.2.1⟩

/-! ### C2: encode ∘ parse round trip -/

theorem leNat_lt : ∀ (bs : List Nat), (∀ b ∈ bs, b < 256) →
    leNat bs < 256 ^ bs.length
  | [], _ => by simp [leNat]
  | b :: bs, h => by
      have hb : b < 256 := h b (by simp)
      have ih := leNat_lt bs (fun x hx => h x (by simp [hx]))
      rw [leNat]
      calc b + 256 * leNat bs < 256 + 256 * leNat bs := by omega
        _ = 256 * (leNat bs + 1) := by ring
        _ ≤ 256 * 256 ^ bs.length := by
              exact Nat.mul_le_mul_left _ (by omega)
        _ = 256 ^ (b :: bs).length := by rw [List.length_cons]; ring

theorem leBytes_leNat : ∀ (bs : List Nat), (∀ b ∈ bs, b < 256) →
    leBytes bs.length (leNat bs) = bs
  | [], _ => rfl
  | b :: bs, h => by
      have hb : b < 256 := h b (by simp)
      have ih := leBytes_leNat bs (fun x hx => h x (by simp [hx]))
      rw [List.length_cons, leBytes, leNat]
      congr 1
      · omega
      · rw [show (b + 256 * leNat bs) / 256 = leNat bs by omega]
        exact ih

theorem pow256 (s : Nat) : (256 : Nat) ^ s = 2 ^ (8 * s) := by
  rw [show (256 : Nat) = 2 ^ 8 by norm_num, ← pow_mul]

/-- Re-encoding one decoded primitive reproduces its raw bytes. -/
theorem decPrim_roundtrip (p : PrimTy) (bs : List Nat)
    (hlen : bs.length = p.size) (hb : ∀ b ∈ bs, b < 256) :
    leBytes p.size ((decPrim p bs % (2 : Int) ^ (8 * p.size)).toNat) = bs := by
  have hn : leNat bs < 2 ^ (8 * p.size) := by
    have := leNat_lt bs hb
    rwa [hlen, pow256] at this
  have hmod : (decPrim p bs % (2 : Int) ^ (8 * p.size)).toNat = leNat bs := by
    unfold decPrim
    split_ifs with hs
    · rw [Int.sub_emod, Int.emod_self, sub_zero, Int.emod_emod]
      rw [Int.emod_eq_of_lt (by positivity) (by exact_mod_cast hn)]
      exact Int.toNat_natCast _
    · rw [Int.emod_eq_of_lt (by positivity) (by exact_mod_cast hn)]
      exact Int.toNat_natCast _
  rw [hmod, ← hlen]
  exact leBytes_leNat bs hb

/-- `struct.unpack` succeeds on buffers of exactly the calcsize, yielding
one value per code item. -/
theorem unpack_succeeds : ∀ (fmt : List FmtItem) (bs : List Nat),
    bs.length = calcsize fmt →
    ∃ vs, unpackItems fmt bs = some vs ∧ vs.length = codeCount fmt
  | [], bs, h => by
      have : bs = [] := List.length_eq_zero.1 (by simpa [calcsize] using h)
      subst this
      exact ⟨[], rfl, by simp [codeCount]⟩
  | .pad :: rest, bs, h => by
      have h1 : bs.length = 1 + calcsize rest := by simpa [calcsize] using h
      obtain ⟨b, bs', rfl⟩ : ∃ b bs', bs = b :: bs' := by
        cases bs with
        | nil => simp at h1; omega
        | cons b bs' => exact ⟨b, bs', rfl⟩
      obtain ⟨vs, hu, hl⟩ := unpack_succeeds rest bs' (by
        simp at h1; omega)
      exact ⟨vs, by simpa [unpackItems] using hu,
             by simpa [codeCount, List.countP_cons] using hl⟩
  | .code p :: rest, bs, h => by
      have h1 : bs.length = p.size + calcsize rest := by
        simpa [calcsize] using h
      have hle : p.size ≤ bs.length := by omega
      obtain ⟨vs, hu, hl⟩ := unpack_succeeds rest (bs.drop p.size) (by
        rw [List.length_drop]; omega)
      refine ⟨decPrim p (bs.take p.size) :: vs, ?_, ?_⟩
      · simp only [unpackItems, if_pos hle, hu]
      · simp [codeCount, List.countP_cons] at hl ⊢
        omega

theorem maskAgree_nil : maskAgree [] [] [] := trivial

theorem maskAgree_cons (m : Bool) (ms : List Bool) (x y : Nat)
    (xs ys : List Nat) (h1 : m = false → x = y) (h2 : maskAgree ms xs ys) :
    maskAgree (m :: ms) (x :: xs) (y :: ys) := ⟨h1, h2⟩

/-- Any mask relates equal lists of its own length. -/
theorem maskAgree_refl : ∀ (ms : List Bool) (xs : List Nat),
    ms.length = xs.length → maskAgree ms xs xs
  | [], [], _ => trivial
  | [], _ :: _, h => by simp at h
  | _ :: _, [], h => by simp at h
  | m :: ms, x :: xs, h =>
      ⟨fun _ => rfl, maskAgree_refl ms xs (by simpa using h)⟩

theorem maskAgree_append : ∀ (m1 : List Bool) (x1 y1 : List Nat)
    (m2 : List Bool) (x2 y2 : List Nat),
    maskAgree m1 x1 y1 → maskAgree m2 x2 y2 →
    maskAgree (m1 ++ m2) (x1 ++ x2) (y1 ++ y2)
  | [], [], [], _, _, _, _, h2 => h2
  | [], [], _ :: _, _, _, _, h1, _ => absurd h1 (by simp [maskAgree])
  | [], _ :: _, _, _, _, _, h1, _ => absurd h1 (by simp [maskAgree])
  | _ :: _, [], _, _, _, _, h1, _ => absurd h1 (by simp [maskAgree])
  | _ :: _, _ :: _, [], _, _, _, h1, _ => absurd h1 (by simp [maskAgree])
  | m :: ms, x :: xs, y :: ys, m2, x2, y2, h1, h2 =>
      ⟨h1.1, maskAgree_append ms xs ys m2 x2 y2 h1.2 h2⟩

/-- `maskAgree` gives equal lengths and pointwise agreement at every
non-masked index. -/
theorem maskAgree_spec : ∀ (ms : List Bool) (xs ys : List Nat),
    maskAgree ms xs ys →
    xs.length = ys.length ∧
    ∀ i, i < xs.length → ms.getD i true = false →
      xs.getD i 0 = ys.getD i 0
  | [], [], [], _ => ⟨rfl, fun i h => absurd h (by simp)⟩
  | [], [], _ :: _, h => absurd h (by simp [maskAgree])
  | [], _ :: _, _, h => absurd h (by simp [maskAgree])
  | _ :: _, [], _, h => absurd h (by simp [maskAgree])
  | _ :: _, _ :: _, [], h => absurd h (by simp [maskAgree])
  | m :: ms, x :: xs, y :: ys, h => by
      obtain ⟨hh, ht⟩ := h
      obtain ⟨hl, hp⟩ := maskAgree_spec ms xs ys ht
      refine ⟨by simpa using hl, ?_⟩
      intro i hi hm
      cases i with
      | zero => simpa using hh (by simpa using hm)
      | succ j =>
          rw [List.getD_cons_succ] at hm ⊢
          rw [List.getD_cons_succ]
          exact hp j (by simpa using hi) hm

/-- Packing the values unpacked from a buffer reproduces the buffer at
every non-padding byte position (padding bytes are re-emitted as 0). -/
theorem unpack_pack : ∀ (fmt : List FmtItem) (bs : List Nat)
    (vs : List Int), (∀ b ∈ bs, b < 256) → unpackItems fmt bs = some vs →
    ∃ out, packItems fmt vs = some out ∧ maskAgree (padMask fmt) out bs
  | [], [], vs, _, h => by
      cases h
      exact ⟨[], rfl, maskAgree_nil⟩
  | [], _ :: _, vs, _, h => by simp [unpackItems] at h
  | .pad :: rest, [], vs, _, h => by simp [unpackItems] at h
  | .pad :: rest, b :: bs, vs, hb, h => by
      obtain ⟨out, hp, ha⟩ := unpack_pack rest bs vs
        (fun x hx => hb x (by simp [hx]))
        (by simpa [unpackItems] using h)
      refine ⟨0 :: out, ?_, ?_⟩
      · simp [packItems, hp]
      · exact maskAgree_cons true _ 0 b out bs (by simp) ha
  | .code p :: rest, bs, vs, hb, h => by
      simp only [unpackItems] at h
      by_cases hle : p.size ≤ bs.length
      · rw [if_pos hle] at h
        cases hu : unpackItems rest (bs.drop p.size) with
        | none => rw [hu] at h; cases h
        | some vs' =>
            rw [hu] at h
            cases h
            obtain ⟨out, hp, ha⟩ := unpack_pack rest (bs.drop p.size) vs'
              (fun x hx => hb x (List.mem_of_mem_drop hx)) hu
            refine ⟨leBytes p.size
                ((decPrim p (bs.take p.size) % (2 : Int) ^ (8 * p.size)).toNat)
                ++ out, ?_, ?_⟩
            · simp [packItems, hp]
            · have hrt := decPrim_roundtrip p (bs.take p.size)
                (by rw [List.length_take]; omega)
                (fun x hx => hb x (List.mem_of_mem_take hx))
              rw [hrt]
              have hagree := maskAgree_append
                (List.replicate p.size false) (bs.take p.size) (bs.take p.size)
                (padMask rest) out (bs.drop p.size)
                (maskAgree_refl _ _ (by
                  rw [List.length_replicate, List.length_take]; omega)) ha
              rw [padMask]
              convert hagree using 2
              exact (List.take_append_drop p.size bs).symm
      · rw [if_neg hle] at h; cases h

/-- Rebuilding the tree and flattening it returns the consumed prefix of
the unpacked values. -/
theorem fromUnpacked_flatten : ∀ (fs : FieldList) (vs : List Int)
    (l : ValueList) (rest : List Int),
    fromUnpackedFields fs vs = some (l, rest) →
    flattenValues l ++ rest = vs
  | .nil, vs, l, rest, h => by
      cases h; simp [flattenValues]
  | .cons n (.prim p) t, [], l, rest, h => by
      simp [fromUnpackedFields] at h
  | .cons n (.prim p) t, v :: vs, l, rest, h => by
      cases hr : fromUnpackedFields t vs with
      | none => simp only [fromUnpackedFields, hr] at h; cases h
      | some pr =>
          obtain ⟨l2, r2⟩ := pr
          simp only [fromUnpackedFields, hr, Option.some.injEq] at h
          obtain ⟨rfl, rfl⟩ := Prod.mk.injEq .. ▸ h
          have ih := fromUnpacked_flatten t vs l2 r2 hr
          simp [flattenValues, ih]
  | .cons n (.comp (.mk b sfs)) t, vs, l, rest, h => by
      cases hr1 : fromUnpackedFields sfs vs with
      | none => simp only [fromUnpackedFields, hr1] at h; cases h
      | some pr1 =>
          obtain ⟨inner, vs1⟩ := pr1
          cases hr2 : fromUnpackedFields t vs1 with
          | none => simp only [fromUnpackedFields, hr1, hr2] at h; cases h
          | some pr2 =>
              obtain ⟨l2, r2⟩ := pr2
              simp only [fromUnpackedFields, hr1, hr2, Option.some.injEq] at h
              obtain ⟨rfl, rfl⟩ := Prod.mk.injEq .. ▸ h
              have ih1 := fromUnpacked_flatten sfs vs inner vs1 hr1
              have ih2 := fromUnpacked_flatten t vs1 l2 r2 hr2
              simp [flattenValues, ← ih1, ← ih2]
  | .cons n (.invalid ty) t, vs, l, rest, h =>
      fromUnpacked_flatten t vs l rest h

/-- Rebuilding succeeds whenever enough unpacked values are available,
consuming exactly one per leaf. -/
theorem fromUnpacked_total : ∀ (fs : FieldList) (vs : List Int),
    leafCount fs ≤ vs.length →
    ∃ l rest, fromUnpackedFields fs vs = some (l, rest) ∧
      rest.length = vs.length - leafCount fs
  | .nil, vs, _ => ⟨.nil, vs, rfl, by simp [leafCount]⟩
  | .cons n (.prim p) t, vs, h => by
      rw [leafCount] at h
      obtain ⟨v, vs', rfl⟩ : ∃ v vs', vs = v :: vs' := by
        cases vs with
        | nil => simp at h
        | cons v vs' => exact ⟨v, vs', rfl⟩
      obtain ⟨l, rest, hr, hl⟩ := fromUnpacked_total t vs' (by
        simp at h ⊢; omega)
      refine ⟨.cons (.prim v) l, rest, ?_, ?_⟩
      · simp only [fromUnpackedFields, hr]
      · rw [hl]; simp [leafCount]; omega
  | .cons n (.comp (.mk b sfs)) t, vs, h => by
      rw [leafCount] at h
      obtain ⟨inner, vs1, hr1, hl1⟩ := fromUnpacked_total sfs vs (by omega)
      obtain ⟨l2, r2, hr2, hl2⟩ := fromUnpacked_total t vs1 (by omega)
      refine ⟨.cons (.struct inner) l2, r2, ?_, ?_⟩
      · simp only [fromUnpackedFields, hr1, hr2]
      · rw [hl2, hl1, leafCount]; omega
  | .cons n (.invalid ty) t, vs, h => by
      obtain ⟨l, rest, hr, hl⟩ := fromUnpacked_total t vs (by
        rw [leafCount] at h; exact h)
      exact ⟨l, rest, hr, by rw [hl, leafCount]⟩

theorem codeCount_append (a b : List FmtItem) :
    codeCount (a ++ b) = codeCount a + codeCount b := by
  simp [codeCount, List.countP_append]

theorem codeCount_replicate_pad (n : Nat) :
    codeCount (List.replicate n .pad) = 0 := by
  induction n with
  | zero => rfl
  | succ k ih =>
      simp [List.replicate_succ, codeCount, List.countP_cons] at ih ⊢

theorem codeCount_single_code (p : PrimTy) : codeCount [.code p] = 1 := rfl

theorem codeCount_nil : codeCount [] = 0 := rfl

/-- The compile loop emits exactly one code item per primitive leaf. -/
theorem codes_fields : ∀ (fs : FieldList) (st st' : CState),
    compileFields fs st = .ok st' →
    codeCount st'.fmt = codeCount st.fmt + leafCount fs
  | .nil, st, st', h => by
      rw [compileFields_nil] at h; cases h; simp [leafCount]
  | .cons n (.prim p) t, st, st', h => by
      rw [compileFields_cons, compileField_prim, exbind_ok] at h
      have ih := codes_fields t _ _ h
      rw [ih]
      dsimp only
      rw [codeCount_append, codeCount_append, codeCount_replicate_pad,
        codeCount_single_code, leafCount]
      omega
  | .cons n (.comp (.mk b2 sfs)) t, st, st', h => by
      rw [compileFields_cons, compileField_comp] at h
      cases hc : compileStruct (.mk b2 sfs) with
      | error e => rw [hc, exbind_err] at h; cases h
      | ok c =>
          rw [hc, exbind_ok] at h
          by_cases h0 : c.alignment = 0
          · rw [if_pos h0, exbind_err] at h; cases h
          · rw [if_neg h0, exbind_ok] at h
            have ih := codes_fields t _ _ h
            have hcfmt : codeCount c.fmt = leafCount sfs := by
              obtain ⟨stS, hfS, -, rfl⟩ := (compileStruct_ok_iff b2 sfs c).1 hc
              have hcS := codes_fields sfs _ _ hfS
              rw [show codeCount
                  (⟨[], 0, 0, [], []⟩ : CState).fmt = 0 from rfl] at hcS
              dsimp only
              omega
            rw [ih]
            dsimp only
            rw [codeCount_append, codeCount_append, codeCount_replicate_pad,
              hcfmt, leafCount]
            omega
  | .cons n (.invalid ty) t, st, st', h => by
      rw [compileFields_cons, compileField_invalid, exbind_ok] at h
      have ih := codes_fields t _ _ h
      rw [ih, leafCount]

/-- C2: for every compiled composite type and every byte buffer of
exactly its size, parsing succeeds and re-encoding the parsed tree
reproduces the buffer at every non-padding byte position (padding bytes
are not value-bearing). -/
theorem c2_roundtrip :
    ∀ (s : StructDef) (c : Compiled) (bs : List Nat),
      compileStruct s = .ok c → bs.length = c.size → (∀ b ∈ bs, b < 256) →
      ∃ (v : Value) (out : List Nat),
        fromBytes s bs = .ok v ∧ encode c v = some out ∧
        out.length = bs.length ∧
        ∀ i, i < bs.length → (padMask c.fmt).getD i true = false →
          out.getD i 0 = bs.getD i 0 := by
  intro s c bs hc hlen hb
  have hsz := compiled_size_calc s c hc
  obtain ⟨vs, hu, hvl⟩ := unpack_succeeds c.fmt bs (by rw [hlen, hsz])
  obtain ⟨b, fs⟩ := s
  obtain ⟨stF, hfF, herr, hceq⟩ := (compileStruct_ok_iff b fs c).1 hc
  have hcodes : codeCount c.fmt = leafCount fs := by
    have hcf := codes_fields fs _ _ hfF
    rw [show codeCount (⟨[], 0, 0, [], []⟩ : CState).fmt = 0 from rfl] at hcf
    rw [hceq]
    dsimp only
    omega
  obtain ⟨l, rest, hrec, hrl⟩ := fromUnpacked_total fs vs (by omega)
  have hrest : rest = [] := by
    have h0 : rest.length = 0 := by omega
    exact List.length_eq_zero.1 h0
  subst hrest
  have hflat : flattenValues l = vs := by
    have hfl := fromUnpacked_flatten fs vs l [] hrec
    simpa using hfl
  have hnl : ¬ bs.length < c.size := by omega
  have hfb : fromBytes (.mk b fs) bs = .ok (.struct l) := by
    simp [fromBytes, hc, hnl, hu, StructDef.fields, hrec]
  obtain ⟨out, hp, hag⟩ := unpack_pack c.fmt bs vs hb hu
  obtain ⟨hlo, hpt⟩ := maskAgree_spec _ _ _ hag
  refine ⟨.struct l, out, hfb, ?_, hlo, ?_⟩
  · simp only [encode, Value.flatten]
    rw [hflat]
    exact hp
  · intro i hi hm
    exact hpt i (by omega) hm

/-- Witness for C2: struct `B` on the buffer `11 FF 22 22`. -/
theorem c2_witness :
    compileStruct structB =
      .ok ⟨2, [.code .u8, .pad, .code .u16], [⟨"a", 1, 0⟩, ⟨"b", 2, 2⟩], 4⟩ ∧
    ([0x11, 0xFF, 0x22, 0x22] : List Nat).length =
      (⟨2, [.code .u8, .pad, .code .u16], [⟨"a", 1, 0⟩, ⟨"b", 2, 2⟩], 4⟩ :
        Compiled).size ∧
    (∀ b ∈ ([0x11, 0xFF, 0x22, 0x22] : List Nat), b < 256) ∧
    ∃ (v : Value) (out : List Nat),
      fromBytes structB [0x11, 0xFF, 0x22, 0x22] = .ok v ∧
      encode ⟨2, [.code .u8, .pad, .code .u16],
        [⟨"a", 1, 0⟩, ⟨"b", 2, 2⟩], 4⟩ v = some out ∧
      out.length = ([0x11, 0xFF, 0x22, 0x22] : List Nat).length ∧
      ∀ i, i < ([0x11, 0xFF, 0x22, 0x22] : List Nat).length →
        (padMask [.code .u8, .pad, .code .u16]).getD i true = false →
        out.getD i 0 = ([0x11, 0xFF, 0x22, 0x22] : List Nat).getD i 0 :=
  ⟨rfl, rfl, by decide,
   c2_roundtrip structB
     ⟨2, [.code .u8, .pad, .code .u16], [⟨"a", 1, 0⟩, ⟨"b", 2, 2⟩], 4⟩
     [0x11, 0xFF, 0x22, 0x22] rfl rfl (by decide)⟩
